import Mathlib

/-!
Verification development for the neuraX client/compute-node crypto layer and
compute-node message handling.

Sources embedded here:
  src/client/crypto_utils.py   (class CryptoSession)
  src/compute/compute_node.py  (class NeuraXComputeNode)

Conventions of the embedding:
  Byte strings (Python bytes and str values) are represented as List Nat,
  entries intended to lie below 256.  Plaintext str values are identified with
  their UTF-8 byte sequences (UTF-8 encoding and decoding is a bijection
  between str values and valid byte sequences, and the code only decodes bytes
  it itself produced by encoding).

  External library primitives that the repository calls are modelled
  symbolically at the level of their documented contracts; each model carries
  a doc comment naming the primitive it stands for.  Randomness drawn by the
  code (os.urandom) is passed in as an explicit argument.  Python exceptions
  are modelled with Except; each raise site of the source maps to one
  constructor of the error type.
-/

namespace NeuraX

/-- Injective encoding of a byte list into a single natural number: the value
of the list read as little-endian base-256 digits with a trailing sentinel
digit 1.  Used by the symbolic models of the cryptographic primitives below to
bind a value to the exact bytes that produced it. -/
def encB : List Nat → Nat
  | [] => 1
  | b :: rest => b + 256 * encB rest

/-- Base-255 digits of a natural number, with explicit structural fuel so that
the definition is structurally recursive and kernel-reducible. -/
def digitsB : Nat → Nat → List Nat
  | _, 0 => []
  | 0, _ + 1 => []
  | fuel + 1, n + 1 => (n + 1) % 255 :: digitsB fuel ((n + 1) / 255)

/-- Base-255 digits of a natural number (fuel instantiated). -/
def natDigits255 (n : Nat) : List Nat := digitsB n n

/-- Value of a little-endian base-255 digit list. -/
def ofDigits255 : List Nat → Nat
  | [] => 0
  | d :: ds => d + 255 * ofDigits255 ds

/-- Model of base64.urlsafe_b64encode composed with byte-to-str decoding, as
used by CryptoSession (src/client/crypto_utils.py).  The library contract the
code relies on is that the encoding is injective, binary-safe and undone by
base64.urlsafe_b64decode; it is modelled as a self-delimiting byte-level
encoding (base-255 digit blocks separated by the sentinel 255) with exactly
that contract.  The particular base64 alphabet and 4-character chunking are
not observable by any code in this repository. -/
def b64encode : List Nat → List Nat
  | [] => []
  | b :: rest => natDigits255 b ++ 255 :: b64encode rest

/-- Helper for the model of base64.urlsafe_b64decode: consumes the encoded
stream, accumulating the digits of the current block in reverse. -/
def b64decodeAux : List Nat → List Nat → Option (List Nat)
  | cur, [] => if cur = [] then some [] else none
  | cur, c :: rest =>
    if c = 255 then (b64decodeAux [] rest).map (fun tl => ofDigits255 cur.reverse :: tl)
    else b64decodeAux (c :: cur) rest

/-- Model of base64.urlsafe_b64decode, the inverse of b64encode; returns none
where the library raises binascii.Error on malformed input. -/
def b64decode (s : List Nat) : Option (List Nat) := b64decodeAux [] s

/-- Keystream byte of the modelled AES-GCM cipher: an arbitrary function of
key, nonce and position, bounded below 256. -/
def ksByte (key nonce : List Nat) (i : Nat) : Nat :=
  (encB key + encB nonce + i) % 256

/-- Masking layer of the modelled AES-GCM cipher: position-wise XOR of the
input with the keystream, starting at position i.  XOR with the keystream is
an involution, which gives the decryption direction. -/
def gcmMask (key nonce : List Nat) : Nat → List Nat → List Nat
  | _, [] => []
  | i, b :: bs => (b ^^^ ksByte key nonce i) :: gcmMask key nonce (i + 1) bs

/-- Authentication tag of the modelled AES-GCM cipher: a value that binds the
key, the nonce and the ciphertext injectively.  This is the ideal-AEAD
idealisation of the 128-bit GCM tag: the library documents that decryption
raises InvalidTag whenever key, nonce or ciphertext differ from an honest
encryption, and the ideal model makes that guarantee exact. -/
def gcmTag (key nonce ct : List Nat) : Nat :=
  Nat.pair (encB key) (Nat.pair (encB nonce) (encB ct))

/-- Model of AESGCM(key).encrypt(nonce, plaintext, None) from
cryptography.hazmat.primitives.ciphers.aead: authenticated encryption
returning ciphertext with the authentication tag appended. -/
def aesgcmEncrypt (key nonce pt : List Nat) : List Nat :=
  let ct := gcmMask key nonce 0 pt
  ct ++ [gcmTag key nonce ct]

/-- Authentication core of the modelled AESGCM(key).decrypt(nonce, data,
None), after the nonce-length validation has passed: succeeds exactly on
honestly produced ciphertexts, recovering the plaintext; returns none where
the library raises InvalidTag (authentication failure), including on data too
short to contain a tag.  The full library call, including the validation that
precedes authentication, is aesgcmDecryptChecked below. -/
def aesgcmDecrypt (key nonce data : List Nat) : Option (List Nat) :=
  match data.getLast? with
  | none => none
  | some tag =>
    if tag = gcmTag key nonce data.dropLast then
      some (gcmMask key nonce 0 data.dropLast)
    else none

/-- Failure modes of the full AESGCM.decrypt call:
  invalidNonce = ValueError raised by the nonce-length validation in
                 _check_params, before any authentication
  invalidTag   = InvalidTag raised on authentication failure -/
inductive AesgcmFailure
  | invalidNonce
  | invalidTag
deriving DecidableEq

/-- Model of the full AESGCM(key).decrypt(nonce, data, None) call.  The
library validates the nonce length before authenticating: current releases
of the cryptography library raise ValueError unless the nonce is 8 to 128
bytes (an empty nonce has been rejected by every version); only when the
nonce passes does authentication run, raising InvalidTag on failure. -/
def aesgcmDecryptChecked (key nonce data : List Nat) :
    Except AesgcmFailure (List Nat) :=
  if nonce.length < 8 ∨ 128 < nonce.length then
    Except.error AesgcmFailure.invalidNonce
  else
    match aesgcmDecrypt key nonce data with
    | none => Except.error AesgcmFailure.invalidTag
    | some pt => Except.ok pt

/-- Model of RSA-OAEP encryption under a public key, as performed by
remote_pub_key.encrypt(..., padding.OAEP(...)) in
generate_and_encrypt_aes_key.  A key pair is identified by a single natural
number; the symbolic ciphertext binds the recipient key to the plaintext. -/
def rsaEncryptOAEP (pubkey : Nat) (pt : List Nat) : List Nat :=
  pubkey :: pt

/-- Model of RSA-OAEP decryption under a private key, as performed by
self.private_key.decrypt(..., padding.OAEP(...)) in decrypt_rsa.  Returns
none where the library raises on a wrong key pair or corrupted ciphertext. -/
def rsaDecryptOAEP (privkey : Nat) (ct : List Nat) : Option (List Nat) :=
  match ct with
  | [] => none
  | h :: rest => if h = privkey then some rest else none

/-- Error type of the embedding; each constructor corresponds to one family of
Python exceptions escaping a CryptoSession method or raised inside the
compute-node handler.
  notReady         = ValueError raised when self.aes_key is unset (spec name NotReadyError)
  integrityError   = ValueError raised on InvalidTag in decrypt_payload (spec name IntegrityError)
  decodeError      = binascii.Error from base64.urlsafe_b64decode, re-raised (spec name DecodeError)
  nonceLengthError = ValueError from the AESGCM nonce-length validation,
                     re-raised unchanged by the generic except branch of
                     decrypt_payload (not converted to the integrity ValueError)
  rsaDecryptError  = exception re-raised by decrypt_rsa on OAEP failure (spec name KeyExchangeError)
  attributeError   = AttributeError from accessing a method that does not exist
  pemLoadError     = ValueError from serialization.load_pem_public_key on malformed PEM -/
inductive CryptoError
  | notReady
  | integrityError
  | decodeError
  | nonceLengthError
  | rsaDecryptError
  | attributeError
  | pemLoadError
deriving DecidableEq

/-- Embedding of class CryptoSession (src/client/crypto_utils.py).  The RSA
key pair generated in __init__ is identified by the natural number keypair;
aes_key is None until a key exchange sets it, mirroring self.aes_key. -/
structure CryptoSession where
  keypair : Nat
  aes_key : Option (List Nat)
deriving DecidableEq

/-- Embedding of CryptoSession.__init__ : fresh session with the given key
pair and no AES key. -/
def CryptoSession.init (kp : Nat) : CryptoSession := ⟨kp, none⟩

/-- Attribute surface of the RSAPublicKey objects returned by the
cryptography library (cryptography.hazmat.primitives.asymmetric.rsa):
serialization of a public key is done through the method public_bytes.  There
is no method named serialize on RSAPublicKey. -/
def rsaPublicKeyAttrs : List String :=
  ["encrypt", "public_numbers", "public_bytes", "key_size", "verify",
   "recover_data_from_signature"]

/-- The PEM text that serializing the public key of the given key pair with
public_bytes(Encoding.PEM, PublicFormat.SubjectPublicKeyInfo) would produce;
modelled as an injective text encoding of the key pair.  Unreachable in the
embedded code because get_public_key_pem looks up a method that does not
exist. -/
def pemEncode (kp : Nat) : List Nat :=
  45 :: b64encode [kp]

/-- Model of serialization.load_pem_public_key: inverse of pemEncode,
returning none where the library raises on malformed input. -/
def pemDecode (l : List Nat) : Option Nat :=
  match l with
  | 45 :: rest =>
    match b64decode rest with
    | some [k] => some k
    | _ => none
  | _ => none

/-- Embedding of CryptoSession.get_public_key_pem.  The source evaluates
self.public_key.serialize(encoding=..., format=...); RSAPublicKey has no
attribute serialize (the serialization method is public_bytes), so the
attribute lookup raises AttributeError before anything else happens. -/
def get_public_key_pem (s : CryptoSession) : Except CryptoError (List Nat) :=
  if "serialize" ∈ rsaPublicKeyAttrs then Except.ok (pemEncode s.keypair)
  else Except.error CryptoError.attributeError

/-- Embedding of CryptoSession.decrypt_rsa: OAEP decryption under the session
private key; the try/except block logs and re-raises on failure. -/
def decrypt_rsa (s : CryptoSession) (ct : List Nat) : Except CryptoError (List Nat) :=
  match rsaDecryptOAEP s.keypair ct with
  | none => Except.error CryptoError.rsaDecryptError
  | some pt => Except.ok pt

/-- Embedding of CryptoSession.exchange_aes_key: base64-decode the incoming
encrypted key, RSA-decrypt it, and store the result in self.aes_key.  The
store happens only after both steps succeed; either failure propagates to the
caller before self.aes_key is assigned. -/
def exchange_aes_key (s : CryptoSession) (enc : List Nat) :
    Except CryptoError CryptoSession :=
  match b64decode enc with
  | none => Except.error CryptoError.decodeError
  | some ctbytes =>
    match decrypt_rsa s ctbytes with
    | Except.error e => Except.error e
    | Except.ok k => Except.ok { s with aes_key := some k }

/-- Embedding of CryptoSession.generate_and_encrypt_aes_key.  newKey stands
for the os.urandom(32) draw.  The source stores the new key in self.aes_key
(step 2) before loading the remote PEM (step 3), so the session mutation
persists even when PEM loading raises; the returned pair is the mutated
session together with the outcome of the remaining steps. -/
def generate_and_encrypt_aes_key (s : CryptoSession) (newKey remotePem : List Nat) :
    CryptoSession × Except CryptoError (List Nat) :=
  let s1 := { s with aes_key := some newKey }
  match pemDecode remotePem with
  | none => (s1, Except.error CryptoError.pemLoadError)
  | some pub => (s1, Except.ok (b64encode (rsaEncryptOAEP pub newKey)))

/-- Embedding of CryptoSession.encrypt_payload.  nonce stands for the
os.urandom(12) draw of step 2.  The guard mirrors the Python truthiness test
`if not self.aes_key`, which fires on None and on the empty byte string. -/
def encrypt_payload (s : CryptoSession) (nonce pt : List Nat) :
    Except CryptoError (List Nat) :=
  match s.aes_key with
  | none => Except.error CryptoError.notReady
  | some key =>
    if key = [] then Except.error CryptoError.notReady
    else Except.ok (b64encode (nonce ++ aesgcmEncrypt key nonce pt))

/-- Embedding of CryptoSession.decrypt_payload: after the readiness guard,
base64-decode (binascii.Error re-raised as decodeError), split the first 12
bytes as the nonce by Python slicing (total, never out of bounds), then the
full AESGCM.decrypt call.  Its InvalidTag is caught and converted to the
integrity ValueError; its nonce-length ValueError matches no specific except
clause and is re-raised unchanged by the generic except branch. -/
def decrypt_payload (s : CryptoSession) (enc : List Nat) :
    Except CryptoError (List Nat) :=
  match s.aes_key with
  | none => Except.error CryptoError.notReady
  | some key =>
    if key = [] then Except.error CryptoError.notReady
    else
      match b64decode enc with
      | none => Except.error CryptoError.decodeError
      | some full =>
        match aesgcmDecryptChecked key (full.take 12) (full.drop 12) with
        | Except.error AesgcmFailure.invalidNonce =>
          Except.error CryptoError.nonceLengthError
        | Except.error AesgcmFailure.invalidTag =>
          Except.error CryptoError.integrityError
        | Except.ok pt => Except.ok pt

/-- Task payload decoded from an encrypted_task message: the fields code and
type of the sealed JSON object (src/compute/compute_node.py, step 4 of
_handle_message). -/
structure TaskPayload where
  code : List Nat
  kind : List Nat
deriving DecidableEq

/-- Embedding of the result dictionaries produced by
NeuraXComputeNode._execute_in_sandbox: exit code, captured stdout and stderr,
and measured wall-clock duration. -/
structure ExecutionResult where
  exit_code : Int
  stdout : String
  stderr : String
  execution_time : Nat
deriving DecidableEq

/-- Outcome of one sandbox invocation as seen by _execute_in_sandbox after the
Docker availability check passed: the awaited subprocess completed with the
given exit code and output, or asyncio.wait_for timed out, or an exception
(setup failure such as tempfile or subprocess creation) was raised with the
given message. -/
inductive SandboxEvent
  | completed (exit_code : Int) (stdout stderr : String)
  | timedOut
  | raised (msg : String)
deriving DecidableEq

/-- Embedding of NeuraXComputeNode._execute_in_sandbox
(src/compute/compute_node.py).  docker is self.docker_available; ev is the
outcome of the Docker invocation (external world); elapsed models the
time.time() difference.  The temp-file bookkeeping has no observable effect
on the returned result and is omitted. -/
def execute_in_sandbox (docker : Bool) (ev : SandboxEvent) (elapsed : Nat) :
    ExecutionResult :=
  if !docker then
    ⟨-1, "", "Docker not available. Please install Docker to enable sandbox execution.", 0⟩
  else
    match ev with
    | SandboxEvent.completed code out err => ⟨code, out, err, elapsed⟩
    | SandboxEvent.timedOut => ⟨-1, "", "Execution timeout (30 seconds)", elapsed⟩
    | SandboxEvent.raised msg => ⟨-1, "", "Execution error: " ++ msg, elapsed⟩

/-- Per-session data kept by the compute node in self.sessions: the crypto
session and the remote public key (the channel and peer connection handles
are opaque; channel closing is recorded in HandleOutcome). -/
structure NodeSession where
  crypto : CryptoSession
  remote_public_key : Option (List Nat)
deriving DecidableEq

/-- Messages the compute node sends back over the data channel in
_handle_message. -/
inductive OutMsg
  | sendPublicKey (pem : List Nat)
  | aesKeyReceived
  | encryptedResult (data : List Nat)
deriving DecidableEq

/-- Parsed form of an incoming data-channel message, keyed by the type and
action fields that _handle_message dispatches on.  keyExchangeOther covers a
key_exchange message with any other action; otherMsg covers any other type
(both fall through the dispatch with no effect). -/
inductive InMsg
  | keyExchangePub (pk : List Nat)
  | keyExchangeAes (enc : List Nat)
  | keyExchangeOther
  | encryptedTask (data : List Nat)
  | otherMsg
deriving DecidableEq

/-- Result of one _handle_message call for one session: the session entry
afterwards (none when the handler removed it from self.sessions), the
messages sent to the peer, and whether the handler closed the channel. -/
structure HandleOutcome where
  sessionAfter : Option NodeSession
  sent : List OutMsg
  channelClosed : Bool
deriving DecidableEq

/-- External collaborators of _handle_message, passed in explicitly:
parseTask models json.loads on the decrypted task plus field extraction
(none where json.loads raises); encodeResult models json.dumps of the result
dictionary; runSandbox is the awaited _execute_in_sandbox outcome for the
task; resultNonce is the os.urandom(12) draw used when sealing the result. -/
structure HandlerEnv where
  parseTask : List Nat → Option TaskPayload
  encodeResult : ExecutionResult → List Nat
  runSandbox : TaskPayload → ExecutionResult
  resultNonce : List Nat

/-- Embedding of NeuraXComputeNode._handle_message for a session present in
self.sessions.  The whole body runs under one try/except whose handler only
logs, so any exception leaves the registry, the channel and the session state
as they were at the raise point; msg = none models a json.loads failure on
the raw message.  On the send_public_key branch the source mutates
session_data before calling get_public_key_pem, whose attribute lookup
raises, so the mutation persists and no reply is sent.  On a successful
encrypted_task the source sends the sealed result, closes the channel and
deletes the session from self.sessions. -/
def handleMessage (env : HandlerEnv) (sess : NodeSession) (msg : Option InMsg) :
    HandleOutcome :=
  match msg with
  | none => ⟨some sess, [], false⟩
  | some InMsg.keyExchangeOther => ⟨some sess, [], false⟩
  | some InMsg.otherMsg => ⟨some sess, [], false⟩
  | some (InMsg.keyExchangePub pk) =>
    let sess1 := { sess with remote_public_key := some pk }
    match get_public_key_pem sess1.crypto with
    | Except.error _ => ⟨some sess1, [], false⟩
    | Except.ok pem => ⟨some sess1, [OutMsg.sendPublicKey pem], false⟩
  | some (InMsg.keyExchangeAes enc) =>
    match exchange_aes_key sess.crypto enc with
    | Except.error _ => ⟨some sess, [], false⟩
    | Except.ok crypto1 =>
      ⟨some { sess with crypto := crypto1 }, [OutMsg.aesKeyReceived], false⟩
  | some (InMsg.encryptedTask dat) =>
    match decrypt_payload sess.crypto dat with
    | Except.error _ => ⟨some sess, [], false⟩
    | Except.ok pt =>
      match env.parseTask pt with
      | none => ⟨some sess, [], false⟩
      | some task =>
        let res := env.runSandbox task
        match encrypt_payload sess.crypto env.resultNonce (env.encodeResult res) with
        | Except.error _ => ⟨some sess, [], false⟩
        | Except.ok encRes => ⟨none, [OutMsg.encryptedResult encRes], true⟩

/-- Flip bit k of the byte at position i of a byte list: the tampering
operation quantified over in the tamper-detection property. -/
def flipAt (l : List Nat) (i k : Nat) : List Nat :=
  l.set i ((l.getD i 0) ^^^ (2 ^ k))

/-- Error raised by connect_to_signaling after exhausting its attempts. -/
inductive NodeError
  | connectionError
deriving DecidableEq

/-- Observable trace of one connect_to_signaling call: how many connection
attempts were made, the asyncio.sleep durations between failed attempts, and
whether the call returned or raised ConnectionError. -/
structure ConnectTrace where
  attempts : Nat
  sleeps : List Nat
  result : Except NodeError Unit

/-- Loop body of NeuraXComputeNode.connect_to_signaling: remaining counts the
iterations left of `for attempt in range(max_retries)`, attempt is the loop
index, delay is retry_delay.  On failure the source sleeps and doubles the
delay (capped at 30) only when this is not the last attempt; the last failed
attempt raises ConnectionError. -/
def connectAux (outcomes : Nat → Bool) :
    Nat → Nat → Nat → Nat → List Nat → ConnectTrace
  | 0, _, _, made, sleeps => ⟨made, sleeps, Except.error NodeError.connectionError⟩
  | 1, attempt, _, made, sleeps =>
    if outcomes attempt then ⟨made + 1, sleeps, Except.ok ()⟩
    else ⟨made + 1, sleeps, Except.error NodeError.connectionError⟩
  | rem + 2, attempt, delay, made, sleeps =>
    if outcomes attempt then ⟨made + 1, sleeps, Except.ok ()⟩
    else connectAux outcomes (rem + 1) (attempt + 1) (min (delay * 2) 30) (made + 1)
      (sleeps ++ [delay])

/-- Embedding of NeuraXComputeNode.connect_to_signaling: max_retries = 5,
initial retry_delay = 5; outcomes i tells whether the i-th sio.connect call
succeeds (external world). -/
def connect_to_signaling (outcomes : Nat → Bool) : ConnectTrace :=
  connectAux outcomes 5 0 5 0 []

/-! Helper lemmas about the byte-level encodings. -/

theorem digitsB_lt : ∀ fuel n, ∀ d ∈ digitsB fuel n, d < 255 := by
  intro fuel
  induction fuel with
  | zero =>
    intro n d hd
    cases n with
    | zero => simp [digitsB] at hd
    | succ m => simp [digitsB] at hd
  | succ f ih =>
    intro n d hd
    cases n with
    | zero => simp [digitsB] at hd
    | succ m =>
      simp only [digitsB, List.mem_cons] at hd
      rcases hd with h | h
      · subst h; exact Nat.mod_lt _ (by norm_num)
      · exact ih _ d h

theorem ofDigits255_digitsB : ∀ fuel n, n ≤ fuel → ofDigits255 (digitsB fuel n) = n := by
  intro fuel
  induction fuel with
  | zero =>
    intro n hn
    interval_cases n
    simp [digitsB, ofDigits255]
  | succ f ih =>
    intro n hn
    cases n with
    | zero => simp [digitsB, ofDigits255]
    | succ m =>
      have hdiv : (m + 1) / 255 ≤ f := by
        have h1 : (m + 1) / 255 < m + 1 := Nat.div_lt_self (Nat.succ_pos m) (by norm_num)
        omega
      simp only [digitsB, ofDigits255, ih _ hdiv]
      exact Nat.mod_add_div (m + 1) 255

theorem natDigits255_lt (n : Nat) : ∀ d ∈ natDigits255 n, d < 255 :=
  digitsB_lt n n

theorem ofDigits255_natDigits255 (n : Nat) : ofDigits255 (natDigits255 n) = n :=
  ofDigits255_digitsB n n (Nat.le_refl n)

theorem b64decodeAux_block :
    ∀ (ds : List Nat), (∀ d ∈ ds, d < 255) → ∀ cur rest,
      b64decodeAux cur (ds ++ 255 :: rest) =
        (b64decodeAux [] rest).map (fun tl => ofDigits255 (cur.reverse ++ ds) :: tl) := by
  intro ds
  induction ds with
  | nil =>
    intro _ cur rest
    simp [b64decodeAux]
  | cons d ds ih =>
    intro hds cur rest
    have hd : d < 255 := hds d (List.mem_cons_self d ds)
    have hne : d ≠ 255 := by omega
    have step : b64decodeAux cur ((d :: ds) ++ 255 :: rest) =
        b64decodeAux (d :: cur) (ds ++ 255 :: rest) := by
      rw [List.cons_append]
      simp only [b64decodeAux]
      rw [if_neg hne]
    rw [step, ih (fun x hx => hds x (List.mem_cons_of_mem d hx)) (d :: cur) rest]
    simp [List.append_assoc]

theorem b64decode_b64encode (l : List Nat) : b64decode (b64encode l) = some l := by
  induction l with
  | nil => simp [b64decode, b64encode, b64decodeAux]
  | cons b rest ih =>
    show b64decodeAux [] (natDigits255 b ++ 255 :: b64encode rest) = some (b :: rest)
    rw [b64decodeAux_block (natDigits255 b) (natDigits255_lt b) [] (b64encode rest)]
    show (b64decode (b64encode rest)).map _ = some (b :: rest)
    rw [ih]
    simp [ofDigits255_natDigits255]

theorem encB_pos : ∀ l : List Nat, 1 ≤ encB l := by
  intro l
  cases l with
  | nil => simp [encB]
  | cons b rest =>
    have := encB_pos rest
    simp only [encB]
    omega

theorem encB_injOn :
    ∀ l₁ l₂ : List Nat, (∀ b ∈ l₁, b < 256) → (∀ b ∈ l₂, b < 256) →
      encB l₁ = encB l₂ → l₁ = l₂ := by
  intro l₁
  induction l₁ with
  | nil =>
    intro l₂ _ h₂ h
    cases l₂ with
    | nil => rfl
    | cons b r =>
      exfalso
      have hb : b < 256 := h₂ b (List.mem_cons_self b r)
      have hr := encB_pos r
      simp only [encB] at h
      omega
  | cons a r₁ ih =>
    intro l₂ h₁ h₂ h
    cases l₂ with
    | nil =>
      exfalso
      have ha : a < 256 := h₁ a (List.mem_cons_self a r₁)
      have hr := encB_pos r₁
      simp only [encB] at h
      omega
    | cons b r₂ =>
      have ha : a < 256 := h₁ a (List.mem_cons_self a r₁)
      have hb : b < 256 := h₂ b (List.mem_cons_self b r₂)
      simp only [encB] at h
      have hab : a = b ∧ encB r₁ = encB r₂ := by omega
      have := ih r₂ (fun x hx => h₁ x (List.mem_cons_of_mem a hx))
        (fun x hx => h₂ x (List.mem_cons_of_mem b hx)) hab.2
      rw [hab.1, this]

/-! Helper lemmas about the modelled AES-GCM cipher. -/

theorem ksByte_lt (key nonce : List Nat) (i : Nat) : ksByte key nonce i < 256 :=
  Nat.mod_lt _ (by norm_num)

theorem gcmMask_length (key nonce : List Nat) :
    ∀ i pt, (gcmMask key nonce i pt).length = pt.length := by
  intro i pt
  induction pt generalizing i with
  | nil => rfl
  | cons b bs ih => simp [gcmMask, ih]

theorem gcmMask_gcmMask (key nonce : List Nat) :
    ∀ i pt, gcmMask key nonce i (gcmMask key nonce i pt) = pt := by
  intro i pt
  induction pt generalizing i with
  | nil => rfl
  | cons b bs ih =>
    simp only [gcmMask, ih]
    rw [Nat.xor_cancel_right]

theorem gcmMask_lt (key nonce : List Nat) :
    ∀ i pt, (∀ b ∈ pt, b < 256) → ∀ c ∈ gcmMask key nonce i pt, c < 256 := by
  intro i pt
  induction pt generalizing i with
  | nil => intro _ c hc; simp [gcmMask] at hc
  | cons b bs ih =>
    intro hpt c hc
    simp only [gcmMask, List.mem_cons] at hc
    rcases hc with h | h
    · subst h
      have hb : b < 2 ^ 8 := hpt b (List.mem_cons_self b bs)
      have hk : ksByte key nonce i < 2 ^ 8 := ksByte_lt key nonce i
      exact Nat.xor_lt_two_pow hb hk
    · exact ih (i + 1) (fun x hx => hpt x (List.mem_cons_of_mem b hx)) c h

theorem aesgcmDecrypt_aesgcmEncrypt (key nonce pt : List Nat) :
    aesgcmDecrypt key nonce (aesgcmEncrypt key nonce pt) = some pt := by
  simp [aesgcmEncrypt, aesgcmDecrypt, List.getLast?_concat, List.dropLast_concat,
    gcmMask_gcmMask]

theorem xor_pow_ne (a k : Nat) : a ^^^ 2 ^ k ≠ a := by
  intro h
  have h2 : a ^^^ (a ^^^ 2 ^ k) = a ^^^ a := congrArg (a ^^^ ·) h
  rw [Nat.xor_self, ← Nat.xor_assoc, Nat.xor_self, Nat.zero_xor] at h2
  exact absurd h2 (Nat.pos_iff_ne_zero.mp (Nat.pos_pow_of_pos k (by norm_num)))

theorem length_aesgcmEncrypt (key nonce pt : List Nat) :
    (aesgcmEncrypt key nonce pt).length = pt.length + 1 := by
  simp [aesgcmEncrypt, gcmMask_length]

theorem aesgcmDecrypt_flip (key nonce pt : List Nat) (hpt : ∀ b ∈ pt, b < 256)
    (j k : Nat) (hj : j < (aesgcmEncrypt key nonce pt).length) (hk : k < 8) :
    aesgcmDecrypt key nonce (flipAt (aesgcmEncrypt key nonce pt) j k) = none := by
  have hctb : ∀ c ∈ gcmMask key nonce 0 pt, c < 256 := gcmMask_lt key nonce 0 pt hpt
  have hctlen : (gcmMask key nonce 0 pt).length = pt.length := gcmMask_length key nonce 0 pt
  rw [length_aesgcmEncrypt] at hj
  have hpow : 2 ^ k < 256 := by
    calc 2 ^ k ≤ 2 ^ 7 := Nat.pow_le_pow_right (by norm_num) (by omega)
    _ < 256 := by norm_num
  have henc : aesgcmEncrypt key nonce pt =
      gcmMask key nonce 0 pt ++ [gcmTag key nonce (gcmMask key nonce 0 pt)] := rfl
  rcases Nat.lt_or_ge j pt.length with hlt | hge
  · -- the flipped byte lies in the ciphertext part
    have hlt' : j < (gcmMask key nonce 0 pt).length := by omega
    have hgetD : (gcmMask key nonce 0 pt ++
        [gcmTag key nonce (gcmMask key nonce 0 pt)]).getD j 0 =
        (gcmMask key nonce 0 pt).getD j 0 :=
      List.getD_append _ _ 0 j hlt'
    have hflip : flipAt (aesgcmEncrypt key nonce pt) j k =
        (gcmMask key nonce 0 pt).set j ((gcmMask key nonce 0 pt).getD j 0 ^^^ 2 ^ k) ++
        [gcmTag key nonce (gcmMask key nonce 0 pt)] := by
      rw [flipAt, henc, hgetD, List.set_append, if_pos hlt']
    have hne2 : ¬ (gcmTag key nonce (gcmMask key nonce 0 pt) =
        gcmTag key nonce ((gcmMask key nonce 0 pt).set j
          ((gcmMask key nonce 0 pt).getD j 0 ^^^ 2 ^ k))) := by
      intro heq
      simp only [gcmTag] at heq
      have hpair := (Nat.pair_eq_pair.mp ((Nat.pair_eq_pair.mp heq).2)).2
      have hsetb : ∀ c ∈ (gcmMask key nonce 0 pt).set j
          ((gcmMask key nonce 0 pt).getD j 0 ^^^ 2 ^ k), c < 256 := by
        intro c hc
        rcases List.mem_or_eq_of_mem_set hc with h | h
        · exact hctb c h
        · subst h
          have hj256 : (gcmMask key nonce 0 pt).getD j 0 < 2 ^ 8 := by
            rw [List.getD_eq_getElem _ 0 hlt']
            exact hctb _ (List.getElem_mem hlt')
          exact Nat.xor_lt_two_pow hj256 (by omega)
      have hlists := encB_injOn _ _ hctb hsetb hpair
      have hj2 : j < ((gcmMask key nonce 0 pt).set j
          ((gcmMask key nonce 0 pt).getD j 0 ^^^ 2 ^ k)).length := by
        simpa using hlt'
      have hat := congrArg (fun l => l.getD j 0) hlists
      simp only at hat
      rw [List.getD_eq_getElem _ 0 hj2, List.getElem_set_self] at hat
      exact xor_pow_ne _ k hat.symm
    rw [hflip]
    simp only [aesgcmDecrypt, List.getLast?_concat, List.dropLast_concat]
    rw [if_neg hne2]
  · -- the flipped byte is the appended tag
    have hj' : j = pt.length := by omega
    subst hj'
    have hgetD : (gcmMask key nonce 0 pt ++
        [gcmTag key nonce (gcmMask key nonce 0 pt)]).getD pt.length 0 =
        gcmTag key nonce (gcmMask key nonce 0 pt) := by
      rw [List.getD_append_right _ _ 0 pt.length (by omega), hctlen, Nat.sub_self]
      rfl
    have hsub : pt.length - (gcmMask key nonce 0 pt).length = 0 := by omega
    have hflip : flipAt (aesgcmEncrypt key nonce pt) pt.length k =
        gcmMask key nonce 0 pt ++
        [gcmTag key nonce (gcmMask key nonce 0 pt) ^^^ 2 ^ k] := by
      rw [flipAt, henc, hgetD, List.set_append]
      rw [if_neg (by omega), hsub]
      rfl
    rw [hflip]
    simp only [aesgcmDecrypt, List.getLast?_concat, List.dropLast_concat]
    rw [if_neg (xor_pow_ne _ k)]

/-- A 12-byte nonce passes the nonce-length validation of AESGCM.decrypt, so
on such nonces the full call reduces to the authentication core. -/
theorem aesgcmDecryptChecked_len12 (key nonce data : List Nat)
    (hn : nonce.length = 12) :
    aesgcmDecryptChecked key nonce data =
      (match aesgcmDecrypt key nonce data with
       | none => Except.error AesgcmFailure.invalidTag
       | some pt => Except.ok pt) := by
  rw [aesgcmDecryptChecked, if_neg (by omega)]

/-! Shared helpers for the nonce split of decrypt_payload. -/

theorem take_prefix_12 (nonce rest : List Nat) (hn : nonce.length = 12) :
    (nonce ++ rest).take 12 = nonce := by
  rw [← hn, List.take_left]

theorem drop_prefix_12 (nonce rest : List Nat) (hn : nonce.length = 12) :
    (nonce ++ rest).drop 12 = rest := by
  rw [← hn, List.drop_left]

/-! Claim theorems. -/

/-- C1: for every CryptoSession whose symmetric key has been set and every
plaintext P, decrypt_payload applied to the payload sealed by encrypt_payload
returns P.  The nonce argument stands for the os.urandom(12) draw of the seal
call, so its length is 12. -/
theorem seal_unseal_roundtrip (s : CryptoSession) (key nonce pt : List Nat)
    (hkey : s.aes_key = some key) (hne : key ≠ []) (hn : nonce.length = 12) :
    encrypt_payload s nonce pt =
      Except.ok (b64encode (nonce ++ aesgcmEncrypt key nonce pt)) ∧
    decrypt_payload s (b64encode (nonce ++ aesgcmEncrypt key nonce pt)) =
      Except.ok pt := by
  constructor
  · simp [encrypt_payload, hkey, hne]
  · have htake := take_prefix_12 nonce (aesgcmEncrypt key nonce pt) hn
    have hdrop := drop_prefix_12 nonce (aesgcmEncrypt key nonce pt) hn
    simp [decrypt_payload, hkey, hne, b64decode_b64encode, htake, hdrop,
      aesgcmDecryptChecked_len12 key nonce (aesgcmEncrypt key nonce pt) hn,
      aesgcmDecrypt_aesgcmEncrypt]

/-- C1 witness: the round trip at a concrete session, nonce and plaintext. -/
theorem seal_unseal_roundtrip_witness :
    encrypt_payload ⟨0, some [9]⟩ (List.replicate 12 0) [3] =
      Except.ok (b64encode (List.replicate 12 0 ++
        aesgcmEncrypt [9] (List.replicate 12 0) [3])) ∧
    decrypt_payload ⟨0, some [9]⟩ (b64encode (List.replicate 12 0 ++
        aesgcmEncrypt [9] (List.replicate 12 0) [3])) =
      Except.ok [3] :=
  seal_unseal_roundtrip ⟨0, some [9]⟩ [9] (List.replicate 12 0) [3] rfl
    (by decide) (by decide)

/-- C2: with an established symmetric key, flipping any single bit of any
byte in the ciphertext-or-tag portion of a sealed payload (any plaintext
length, including zero) makes decrypt_payload fail with the integrity
error, which is a different error from the malformed-encoding decode
error. -/
theorem tamper_detection (s : CryptoSession) (key nonce pt : List Nat)
    (hkey : s.aes_key = some key) (hne : key ≠ []) (hn : nonce.length = 12)
    (hpt : ∀ b ∈ pt, b < 256) (j k : Nat)
    (hj : j < (aesgcmEncrypt key nonce pt).length) (hk : k < 8) :
    encrypt_payload s nonce pt =
      Except.ok (b64encode (nonce ++ aesgcmEncrypt key nonce pt)) ∧
    decrypt_payload s (b64encode (nonce ++ flipAt (aesgcmEncrypt key nonce pt) j k)) =
      Except.error CryptoError.integrityError ∧
    CryptoError.integrityError ≠ CryptoError.decodeError := by
  refine ⟨by simp [encrypt_payload, hkey, hne], ?_, by decide⟩
  have htake := take_prefix_12 nonce (flipAt (aesgcmEncrypt key nonce pt) j k) hn
  have hdrop := drop_prefix_12 nonce (flipAt (aesgcmEncrypt key nonce pt) j k) hn
  simp [decrypt_payload, hkey, hne, b64decode_b64encode, htake, hdrop,
    aesgcmDecryptChecked_len12 key nonce (flipAt (aesgcmEncrypt key nonce pt) j k) hn,
    aesgcmDecrypt_flip key nonce pt hpt j k hj hk]

/-- C2 witness: tampering with the single tag byte of a sealed empty payload
at a concrete established session. -/
theorem tamper_detection_witness :
    encrypt_payload ⟨0, some [9]⟩ (List.replicate 12 0) [] =
      Except.ok (b64encode (List.replicate 12 0 ++
        aesgcmEncrypt [9] (List.replicate 12 0) [])) ∧
    decrypt_payload ⟨0, some [9]⟩ (b64encode (List.replicate 12 0 ++
        flipAt (aesgcmEncrypt [9] (List.replicate 12 0) []) 0 0)) =
      Except.error CryptoError.integrityError ∧
    CryptoError.integrityError ≠ CryptoError.decodeError :=
  tamper_detection ⟨0, some [9]⟩ [9] (List.replicate 12 0) [] rfl (by decide)
    (by decide) (by decide) 0 0 (by decide) (by decide)

/-- C3: the claim says get_public_key_pem returns the PEM encoding of the
session public key without raising; in the source the call
self.public_key.serialize(...) looks up a method that the RSAPublicKey
objects of the cryptography library do not have (serialization is done with
public_bytes), so every call raises AttributeError instead. -/
theorem get_public_key_pem_always_raises (s : CryptoSession) :
    get_public_key_pem s = Except.error CryptoError.attributeError := by
  unfold get_public_key_pem
  rw [if_neg (by decide)]

/-- C4: seal and unseal called on a session whose symmetric key has not been
set fail with the not-ready precondition error and return no value. -/
theorem seal_unseal_not_ready (s : CryptoSession) (h : s.aes_key = none)
    (nonce pt enc : List Nat) :
    encrypt_payload s nonce pt = Except.error CryptoError.notReady ∧
    decrypt_payload s enc = Except.error CryptoError.notReady := by
  constructor
  · simp [encrypt_payload, h]
  · simp [decrypt_payload, h]

/-- C4 witness: a fresh session rejects seal and unseal. -/
theorem seal_unseal_not_ready_witness :
    encrypt_payload (CryptoSession.init 3) [] [1] =
      Except.error CryptoError.notReady ∧
    decrypt_payload (CryptoSession.init 3) [2] =
      Except.error CryptoError.notReady :=
  seal_unseal_not_ready (CryptoSession.init 3) rfl [] [1] [2]

/-- C5: a sealed payload is the base64url encoding of the 12-byte nonce
followed by the AEAD ciphertext with appended tag, where the nonce argument
models the fresh os.urandom(12) draw of each call; and decrypt_payload splits
exactly the leading 12 bytes of the decoded input as the nonce and
authenticates/decrypts the remainder, whatever they contain. -/
theorem sealed_wire_format (s : CryptoSession) (key nonce pt n rest : List Nat)
    (hkey : s.aes_key = some key) (hne : key ≠ []) (_hn : nonce.length = 12)
    (hn2 : n.length = 12) :
    encrypt_payload s nonce pt =
      Except.ok (b64encode (nonce ++ aesgcmEncrypt key nonce pt)) ∧
    decrypt_payload s (b64encode (n ++ rest)) =
      (match aesgcmDecrypt key n rest with
       | none => Except.error CryptoError.integrityError
       | some pt1 => Except.ok pt1) := by
  constructor
  · simp [encrypt_payload, hkey, hne]
  · have htake := take_prefix_12 n rest hn2
    have hdrop := drop_prefix_12 n rest hn2
    cases haes : aesgcmDecrypt key n rest with
    | none =>
      simp [decrypt_payload, hkey, hne, b64decode_b64encode, htake, hdrop,
        aesgcmDecryptChecked_len12 key n rest hn2, haes]
    | some pt1 =>
      simp [decrypt_payload, hkey, hne, b64decode_b64encode, htake, hdrop,
        aesgcmDecryptChecked_len12 key n rest hn2, haes]

/-- C5 witness: the wire format at a concrete session, nonce, plaintext and
decoded input. -/
theorem sealed_wire_format_witness :
    encrypt_payload ⟨0, some [9]⟩ (List.replicate 12 0) [3] =
      Except.ok (b64encode (List.replicate 12 0 ++
        aesgcmEncrypt [9] (List.replicate 12 0) [3])) ∧
    decrypt_payload ⟨0, some [9]⟩ (b64encode (List.replicate 12 1 ++ [4])) =
      (match aesgcmDecrypt [9] (List.replicate 12 1) [4] with
       | none => Except.error CryptoError.integrityError
       | some pt1 => Except.ok pt1) :=
  sealed_wire_format ⟨0, some [9]⟩ [9] (List.replicate 12 0) [3]
    (List.replicate 12 1) [4] rfl (by decide) (by decide) (by decide)

/-- C6 counterexample: a compute-node session whose symmetric key is already
established as [1] receives a second send_aes_key message carrying different
key material; the handler unconditionally re-runs exchange_aes_key, so the
stored key becomes [2], a different key, contradicting the claim that no
subsequent operation replaces an established key. -/
theorem aes_key_rotation_cex :
    (handleMessage ⟨fun _ => none, fun _ => [], fun _ => ⟨0, "", "", 0⟩, []⟩
        ⟨⟨7, some [1]⟩, none⟩
        (some (InMsg.keyExchangeAes (b64encode (rsaEncryptOAEP 7 [2]))))).sessionAfter =
      some ⟨⟨7, some [2]⟩, none⟩ ∧
    some ([2] : List Nat) ≠ some [1] := by
  constructor
  · rfl
  · decide

/-- C6 amended: the symmetric key is not write-once; exchange_aes_key stores
the newly unsealed key unconditionally (last write wins), and the compute
node handler invokes it on every send_aes_key message, replying
aes_key_received each time, so a repeated send_aes_key with different key
material replaces the established key. -/
theorem aes_key_last_write_wins (env : HandlerEnv) (sess : NodeSession)
    (enc ct k : List Nat) (hdec : b64decode enc = some ct)
    (hrsa : rsaDecryptOAEP sess.crypto.keypair ct = some k) :
    exchange_aes_key sess.crypto enc =
      Except.ok { sess.crypto with aes_key := some k } ∧
    handleMessage env sess (some (InMsg.keyExchangeAes enc)) =
      ⟨some { sess with crypto := { sess.crypto with aes_key := some k } },
       [OutMsg.aesKeyReceived], false⟩ := by
  have h1 : exchange_aes_key sess.crypto enc =
      Except.ok { sess.crypto with aes_key := some k } := by
    simp [exchange_aes_key, hdec, decrypt_rsa, hrsa]
  exact ⟨h1, by simp [handleMessage, h1]⟩

/-- C6 amended witness: a concrete repeated key exchange overwriting an
established key. -/
theorem aes_key_last_write_wins_witness :
    exchange_aes_key ⟨7, some [1]⟩ (b64encode (rsaEncryptOAEP 7 [2])) =
      Except.ok { (⟨7, some [1]⟩ : CryptoSession) with aes_key := some [2] } ∧
    handleMessage ⟨fun _ => none, fun _ => [], fun _ => ⟨0, "", "", 0⟩, []⟩
        ⟨⟨7, some [1]⟩, none⟩
        (some (InMsg.keyExchangeAes (b64encode (rsaEncryptOAEP 7 [2])))) =
      ⟨some { (⟨⟨7, some [1]⟩, none⟩ : NodeSession) with
          crypto := { (⟨7, some [1]⟩ : CryptoSession) with aes_key := some [2] } },
       [OutMsg.aesKeyReceived], false⟩ :=
  aes_key_last_write_wins ⟨fun _ => none, fun _ => [], fun _ => ⟨0, "", "", 0⟩, []⟩
    ⟨⟨7, some [1]⟩, none⟩ (b64encode (rsaEncryptOAEP 7 [2])) [7, 2] [2]
    (by decide) (by decide)

/-- C7 counterexample: an encrypted_task message whose unseal fails (here the
empty encoded payload, an authentication failure) at a session with an
established key: the handler sends no reply, but contrary to the claim the
session is not removed from the registry and the channel is not closed; the
exception is only logged. -/
theorem unseal_failure_cex :
    (handleMessage ⟨fun _ => none, fun _ => [], fun _ => ⟨0, "", "", 0⟩, []⟩
        ⟨⟨7, some [5]⟩, none⟩ (some (InMsg.encryptedTask []))) =
      ⟨some ⟨⟨7, some [5]⟩, none⟩, [], false⟩ ∧
    ¬ ((handleMessage ⟨fun _ => none, fun _ => [], fun _ => ⟨0, "", "", 0⟩, []⟩
        ⟨⟨7, some [5]⟩, none⟩ (some (InMsg.encryptedTask []))).sessionAfter = none ∧
       (handleMessage ⟨fun _ => none, fun _ => [], fun _ => ⟨0, "", "", 0⟩, []⟩
        ⟨⟨7, some [5]⟩, none⟩ (some (InMsg.encryptedTask []))).channelClosed = true) := by
  constructor
  · rfl
  · decide

/-- C7 amended: when unsealing an encrypted_task fails for any reason
(tampered or corrupted ciphertext, malformed encoding, or arrival before the
symmetric key is established), the compute node sends no reply of any kind,
and the session is left untouched: it stays in the registry and its channel
stays open; the failure is only logged. -/
theorem unseal_failure_no_reply (env : HandlerEnv) (sess : NodeSession)
    (dat : List Nat) (e : CryptoError)
    (h : decrypt_payload sess.crypto dat = Except.error e) :
    handleMessage env sess (some (InMsg.encryptedTask dat)) =
      ⟨some sess, [], false⟩ := by
  simp [handleMessage, h]

/-- C7 amended witness: a concrete failing unseal leaves the session in
place with no reply. -/
theorem unseal_failure_no_reply_witness :
    handleMessage ⟨fun _ => none, fun _ => [], fun _ => ⟨1, "", "", 1⟩, [6]⟩
        ⟨⟨8, some [5]⟩, none⟩ (some (InMsg.encryptedTask [0])) =
      ⟨some ⟨⟨8, some [5]⟩, none⟩, [], false⟩ :=
  unseal_failure_no_reply ⟨fun _ => none, fun _ => [], fun _ => ⟨1, "", "", 1⟩, [6]⟩
    ⟨⟨8, some [5]⟩, none⟩ [0] CryptoError.decodeError rfl

/-- C8: every sandbox invocation that cannot attempt or complete the task
(Docker unavailable, wall-clock timeout, or a setup exception) returns an
ExecutionResult with the reserved exit code -1, empty stdout and a non-empty
stderr explanation; when Docker is unavailable the stderr names that
unavailability, so no fabricated success is returned. -/
theorem sandbox_failure_result (docker : Bool) (ev : SandboxEvent) (t : Nat)
    (h : docker = false ∨ ev = SandboxEvent.timedOut ∨
      ∃ m, ev = SandboxEvent.raised m) :
    (execute_in_sandbox docker ev t).exit_code = -1 ∧
    (execute_in_sandbox docker ev t).stdout = "" ∧
    (execute_in_sandbox docker ev t).stderr ≠ "" ∧
    (docker = false →
      (execute_in_sandbox docker ev t).stderr =
        "Docker not available. Please install Docker to enable sandbox execution.") := by
  cases docker with
  | false =>
    refine ⟨rfl, rfl, ?_, fun _ => rfl⟩
    show ("Docker not available. Please install Docker to enable sandbox execution." : String) ≠ ""
    decide
  | true =>
    rcases h with h | h | ⟨m, h⟩
    · exact absurd h (by decide)
    · subst h
      refine ⟨rfl, rfl, ?_, fun hf => by simp at hf⟩
      show ("Execution timeout (30 seconds)" : String) ≠ ""
      decide
    · subst h
      refine ⟨rfl, rfl, ?_, fun hf => by simp at hf⟩
      show ("Execution error: " ++ m : String) ≠ ""
      intro hemp
      have hlen := congrArg String.length hemp
      rw [String.length_append] at hlen
      have h17 : ("Execution error: " : String).length = 17 := by decide
      have h0 : ("" : String).length = 0 := by decide
      omega

/-- C8 witness: the Docker-unavailable case at a concrete invocation. -/
theorem sandbox_failure_result_witness :
    (execute_in_sandbox false (SandboxEvent.completed 0 "out" "err") 3).exit_code = -1 ∧
    (execute_in_sandbox false (SandboxEvent.completed 0 "out" "err") 3).stdout = "" ∧
    (execute_in_sandbox false (SandboxEvent.completed 0 "out" "err") 3).stderr ≠ "" ∧
    (false = false →
      (execute_in_sandbox false (SandboxEvent.completed 0 "out" "err") 3).stderr =
        "Docker not available. Please install Docker to enable sandbox execution.") :=
  sandbox_failure_result false (SandboxEvent.completed 0 "out" "err") 3 (Or.inl rfl)

/-- C9: the initial connect makes at most 5 attempts; when every attempt
fails it makes exactly 5 attempts, sleeping 5, 10, 20 and 30 seconds between
successive failures (base 5, doubling, capped at 30), and exhaustion raises
ConnectionError. -/
theorem connect_retry_policy (outcomes : Nat → Bool) :
    (connect_to_signaling outcomes).attempts ≤ 5 ∧
    ((∀ i, i < 5 → outcomes i = false) →
      connect_to_signaling outcomes =
        ⟨5, [5, 10, 20, 30], Except.error NodeError.connectionError⟩) := by
  constructor
  · have aux : ∀ rem attempt delay made sleeps,
        (connectAux outcomes rem attempt delay made sleeps).attempts ≤ made + rem := by
      intro rem
      induction rem with
      | zero => intro attempt delay made sleeps; simp [connectAux]
      | succ r ih =>
        intro attempt delay made sleeps
        cases r with
        | zero =>
          simp only [connectAux]
          cases outcomes attempt <;> simp
        | succ r2 =>
          simp only [connectAux]
          cases outcomes attempt with
          | true => simp
          | false =>
            simp only [Bool.false_eq_true, if_false]
            have := ih (attempt + 1) (min (delay * 2) 30) (made + 1) (sleeps ++ [delay])
            omega
    have := aux 5 0 5 0 []
    simpa [connect_to_signaling] using this
  · intro h
    show connectAux outcomes 5 0 5 0 [] = _
    rw [show connectAux outcomes 5 0 5 0 [] =
        connectAux outcomes 4 1 10 1 [5] from by
      simp [connectAux, h 0 (by norm_num)]]
    rw [show connectAux outcomes 4 1 10 1 [5] =
        connectAux outcomes 3 2 20 2 [5, 10] from by
      simp [connectAux, h 1 (by norm_num)]]
    rw [show connectAux outcomes 3 2 20 2 [5, 10] =
        connectAux outcomes 2 3 30 3 [5, 10, 20] from by
      simp [connectAux, h 2 (by norm_num)]]
    rw [show connectAux outcomes 2 3 30 3 [5, 10, 20] =
        connectAux outcomes 1 4 30 4 [5, 10, 20, 30] from by
      simp [connectAux, h 3 (by norm_num)]]
    simp [connectAux, h 4 (by norm_num)]

/-- C9 witness: the all-failures trace at a concrete outcome function. -/
theorem connect_retry_policy_witness :
    (connect_to_signaling (fun _ => false)).attempts ≤ 5 ∧
    connect_to_signaling (fun _ => false) =
      ⟨5, [5, 10, 20, 30], Except.error NodeError.connectionError⟩ :=
  ⟨(connect_retry_policy (fun _ => false)).1,
   (connect_retry_policy (fun _ => false)).2 (fun _ _ => rfl)⟩

/-- C10 counterexample: the claim says every input whose decoded form is
shorter than 12 bytes fails with the integrity error; at the empty input the
whole (empty) decoded payload becomes the nonce, the nonce-length validation
of AESGCM.decrypt raises ValueError before any authentication, and
decrypt_payload re-raises it unchanged through its generic except branch, a
different error from the integrity ValueError. -/
theorem unseal_short_input_cex :
    decrypt_payload ⟨0, some [9]⟩ [] = Except.error CryptoError.nonceLengthError ∧
    CryptoError.nonceLengthError ≠ CryptoError.integrityError := by
  constructor
  · rfl
  · decide

/-- C10 amended: on an established session, decrypt_payload applied to any
input whose base64url decoding is shorter than 12 bytes is total in its
parsing (the Python slices taking the nonce and the remainder never go out of
bounds) and never succeeds: when the decoded input is shorter than 8 bytes
the nonce-length validation of AESGCM.decrypt raises ValueError, re-raised
unchanged as a generic error; when it is 8 to 11 bytes the nonce length is
accepted and the empty remainder fails authentication with the integrity
error. -/
theorem unseal_short_input_errors (s : CryptoSession) (key enc data : List Nat)
    (hkey : s.aes_key = some key) (hne : key ≠ [])
    (hdec : b64decode enc = some data) (hshort : data.length < 12) :
    decrypt_payload s enc =
      (if data.length < 8 then Except.error CryptoError.nonceLengthError
       else Except.error CryptoError.integrityError) := by
  have hdrop : data.drop 12 = [] := List.drop_eq_nil_of_le (by omega)
  have htake : data.take 12 = data := List.take_of_length_le (by omega)
  simp only [decrypt_payload, hkey, hdec]
  rw [if_neg hne, htake, hdrop, aesgcmDecryptChecked]
  by_cases h8 : data.length < 8
  · rw [if_pos (Or.inl h8), if_pos h8]
  · have hcond : ¬ (data.length < 8 ∨ 128 < data.length) := by omega
    rw [if_neg hcond, if_neg h8]
    rfl

/-- C10 amended witness: a 9-byte decoded input (valid nonce length, empty
ciphertext) on a concrete established session; the conclusion evaluates to
the integrity error branch. -/
theorem unseal_short_input_errors_witness :
    decrypt_payload ⟨0, some [9]⟩ (b64encode (List.replicate 9 0)) =
      (if (List.replicate 9 (0 : Nat)).length < 8 then
        Except.error CryptoError.nonceLengthError
       else Except.error CryptoError.integrityError) :=
  unseal_short_input_errors ⟨0, some [9]⟩ [9] (b64encode (List.replicate 9 0))
    (List.replicate 9 0) rfl (by decide) rfl (by decide)

end NeuraX
